import Mathlib

/-!
# Verification of the r3d event dispatcher

Shallow embedding of `src/event/event_dispatcher.rs`.

The Rust dispatcher stores three mutex-protected vectors:
`handlers` (the live list), `added_queue` and `removed_queue`.
`add_handler`/`remove_handler` mutate `handlers` directly when `try_lock`
succeeds and push onto the corresponding queue otherwise.  `dispatch`
returns immediately when `try_lock` on `handlers` fails; otherwise it calls
every live handler in order, then drains `removed_queue` (position +
`swap_remove` on the live list) and finally appends the drained
`added_queue` to the live list.

Modelling choices:
* `HandlerId` is `Nat`; the event payload is `Nat`.
* A callback is modelled by the observable actions it performs when invoked:
  it is a list of reentrant requests, each either `register id cb`
  (`(id, some cb)`) or `unregister id` (`(id, none)`).  Because a callback
  runs while `dispatch` holds the `handlers` lock, its reentrant calls
  always take the queued path, exactly as in the source.
* Callback invocation is observed through the event log returned by
  `dispatch`: entry `(id, e)` means the handler with identity `id` was
  called with event `e`.
* `try_lock` is modelled by an explicit `locked : Bool` argument selecting
  the branch the source takes.
-/

namespace R3d

/-- A callback body: the list of reentrant dispatcher requests it performs
when invoked.  `(i, some c)` registers a new handler `⟨i, c⟩`;
`(i, none)` unregisters the id `i`. -/
inductive Cb : Type where
  | mk : List (Nat × Option Cb) → Cb

/-- The reentrant requests performed by a callback. -/
def cbOps : Cb → List (Nat × Option Cb)
  | Cb.mk ops => ops

/-- `EventHandler<T>`: an id paired with a callback. -/
structure Handler : Type where
  id : Nat
  cb : Cb

/-- `EventDispatcher<T>`: the live list plus the two deferral queues. -/
structure EventDispatcher : Type where
  handlers : List Handler
  added_queue : List Handler
  removed_queue : List Nat

/-- `EventDispatcher::new`. -/
def EventDispatcher.new : EventDispatcher := ⟨[], [], []⟩

/-- Rust `Vec::swap_remove(i)`: overwrite slot `i` with the last element
and pop the last slot.  (Only ever called with `i` in bounds.) -/
def swapRemove {α : Type} (l : List α) (i : Nat) : List α :=
  match l.getLast? with
  | none => l
  | some last => (l.set i last).dropLast

/-- `EventDispatcher::add_handler`.  `locked` tells whether `try_lock` on
`handlers` fails (the lock is held elsewhere). -/
def add_handler (locked : Bool) (s : EventDispatcher) (h : Handler) : EventDispatcher :=
  if locked then { s with added_queue := s.added_queue ++ [h] }
  else { s with handlers := s.handlers ++ [h] }

/-- The body of the uncontended branch of `remove_handler`, also used while
draining `removed_queue` in `dispatch`: find the position of the first
handler with the given id and `swap_remove` it; no-op when absent. -/
def removeFirst (hs : List Handler) (i : Nat) : List Handler :=
  match hs.findIdx? (fun h => h.id == i) with
  | some idx => swapRemove hs idx
  | none => hs

/-- `EventDispatcher::remove_handler`. -/
def remove_handler (locked : Bool) (s : EventDispatcher) (i : Nat) : EventDispatcher :=
  if locked then { s with removed_queue := s.removed_queue ++ [i] }
  else { s with handlers := removeFirst s.handlers i }

/-- A `register` request of a callback, as the handler it would push onto
`added_queue`. -/
def regOfOp : Nat × Option Cb → Option Handler
  | (i, some c) => some ⟨i, c⟩
  | (_, none) => none

/-- An `unregister` request of a callback, as the id it would push onto
`removed_queue`. -/
def unregOfOp : Nat × Option Cb → Option Nat
  | (_, some _) => none
  | (i, none) => some i

/-- Handlers pushed onto `added_queue` while the dispatch loop runs over
`hs`: each callback's register requests, in invocation order. -/
def reentrantAdds (hs : List Handler) : List Handler :=
  hs.flatMap (fun h => (cbOps h.cb).filterMap regOfOp)

/-- Ids pushed onto `removed_queue` while the dispatch loop runs over
`hs`: each callback's unregister requests, in invocation order. -/
def reentrantRemoves (hs : List Handler) : List Nat :=
  hs.flatMap (fun h => (cbOps h.cb).filterMap unregOfOp)

/-- The `removed_queue` drain loop of `dispatch`: apply `removeFirst` for
each queued id, in queue order. -/
def applyRemovals (hs : List Handler) (rq : List Nat) : List Handler :=
  rq.foldl removeFirst hs

/-- `EventDispatcher::dispatch`.  Returns the new state together with the
invocation log.  When `locked` (the `try_lock` fails) it returns at once.
Otherwise: every live handler is invoked with the event (the log), the
queues accumulated so far plus the reentrant requests are drained —
removals applied to the live list first, then the queued additions
appended — and both queues are left empty. -/
def dispatch (locked : Bool) (s : EventDispatcher) (e : Nat) :
    EventDispatcher × List (Nat × Nat) :=
  if locked then (s, [])
  else
    ( { handlers :=
          applyRemovals s.handlers (s.removed_queue ++ reentrantRemoves s.handlers)
            ++ (s.added_queue ++ reentrantAdds s.handlers),
        added_queue := [], removed_queue := [] },
      s.handlers.map (fun h => (h.id, e)) )

/-- Registering a list of handlers on a fresh dispatcher, all on the
uncontended (direct) path. -/
def regAll (hs : List Handler) : EventDispatcher :=
  hs.foldl (add_handler false) EventDispatcher.new

/-! ## Basic lemmas about `swapRemove` and `removeFirst` -/

lemma swapRemove_eq_of_getLast? {α : Type} {l : List α} {x : α}
    (h : l.getLast? = some x) (i : Nat) : swapRemove l i = (l.set i x).dropLast := by
  unfold swapRemove
  rw [h]

lemma swapRemove_zero_perm (a : Handler) (t : List Handler) :
    (swapRemove (a :: t) 0).Perm t := by
  cases t with
  | nil =>
    rw [swapRemove_eq_of_getLast? (List.getLast?_singleton a) 0]
    simp
  | cons b t' =>
    have hne : b :: t' ≠ [] := by simp
    rw [swapRemove_eq_of_getLast?
      (by rw [List.getLast?_cons_cons, List.getLast?_eq_getLast _ hne]) 0]
    rw [List.set_cons_zero, List.dropLast_cons_of_ne_nil hne]
    have h2 := (List.perm_append_singleton ((b :: t').getLast hne) ((b :: t').dropLast)).symm
    rw [List.dropLast_concat_getLast hne] at h2
    exact h2

lemma swapRemove_cons_succ (a : Handler) (t : List Handler) (ht : t ≠ []) (idx : Nat) :
    swapRemove (a :: t) (idx + 1) = a :: swapRemove t idx := by
  cases t with
  | nil => exact absurd rfl ht
  | cons b t' =>
    have hne : b :: t' ≠ [] := by simp
    rw [swapRemove_eq_of_getLast?
      (by rw [List.getLast?_cons_cons, List.getLast?_eq_getLast _ hne]) (idx + 1)]
    rw [swapRemove_eq_of_getLast? (List.getLast?_eq_getLast _ hne) idx]
    rw [List.set_cons_succ]
    have hset : (b :: t').set idx ((b :: t').getLast hne) ≠ [] := by
      intro hcon
      have := congrArg List.length hcon
      simp at this
    rw [List.dropLast_cons_of_ne_nil hset]

lemma removeFirst_cons (a : Handler) (t : List Handler) (i : Nat) :
    removeFirst (a :: t) i =
      if a.id == i then swapRemove (a :: t) 0 else a :: removeFirst t i := by
  by_cases hpa : (a.id == i) = true
  · rw [if_pos hpa]
    unfold removeFirst
    rw [List.findIdx?_cons, if_pos hpa]
  · rw [if_neg hpa]
    unfold removeFirst
    rw [List.findIdx?_cons, if_neg hpa, List.findIdx?_succ]
    cases hf : t.findIdx? (fun h => h.id == i) with
    | none => simp
    | some idx =>
      have ht : t ≠ [] := by
        intro hcon
        rw [hcon] at hf
        simp at hf
      simp only [Option.map_some']
      exact swapRemove_cons_succ a t ht idx

lemma removeFirst_perm (hs : List Handler) (i : Nat) :
    (removeFirst hs i).Perm (hs.eraseP (fun h => h.id == i)) := by
  induction hs with
  | nil => rfl
  | cons a t ih =>
    rw [removeFirst_cons, List.eraseP_cons]
    by_cases hpa : (a.id == i) = true
    · rw [if_pos hpa, hpa, cond_true]
      exact swapRemove_zero_perm a t
    · have hfa : (a.id == i) = false := by simpa using hpa
      rw [if_neg hpa, hfa, cond_false]
      exact ih.cons a

lemma removeFirst_eq_self {hs : List Handler} {i : Nat}
    (h : i ∉ hs.map Handler.id) : removeFirst hs i = hs := by
  unfold removeFirst
  have hnone : hs.findIdx? (fun h => h.id == i) = none := by
    rw [List.findIdx?_eq_none_iff]
    intro x hx
    simp only [beq_eq_false_iff_ne, ne_eq]
    intro hcon
    exact h (List.mem_map.mpr ⟨x, hx, hcon⟩)
  rw [hnone]

lemma mem_of_mem_removeFirst {hs : List Handler} {i : Nat} {x : Handler}
    (h : x ∈ removeFirst hs i) : x ∈ hs :=
  (List.eraseP_sublist hs).subset ((removeFirst_perm hs i).mem_iff.mp h)

lemma mem_ids_of_mem_ids_removeFirst {hs : List Handler} {i a : Nat}
    (h : a ∈ (removeFirst hs i).map Handler.id) : a ∈ hs.map Handler.id := by
  rcases List.mem_map.mp h with ⟨x, hx, hxa⟩
  exact List.mem_map.mpr ⟨x, mem_of_mem_removeFirst hx, hxa⟩

lemma not_mem_ids_eraseP {hs : List Handler} {i : Nat}
    (hnd : (hs.map Handler.id).Nodup) :
    i ∉ (hs.eraseP (fun h => h.id == i)).map Handler.id := by
  induction hs with
  | nil => simp
  | cons a t ih =>
    rw [List.map_cons] at hnd
    have hhead := (List.nodup_cons.mp hnd).1
    have htail := (List.nodup_cons.mp hnd).2
    rw [List.eraseP_cons]
    by_cases hpa : (a.id == i) = true
    · rw [hpa, cond_true]
      have : a.id = i := by simpa using hpa
      rw [← this]
      exact hhead
    · have hfa : (a.id == i) = false := by simpa using hpa
      rw [hfa, cond_false, List.map_cons]
      intro hcon
      rcases List.mem_cons.mp hcon with hc | hc
      · exact hpa (by simp [hc])
      · exact ih htail hc

lemma not_mem_ids_removeFirst {hs : List Handler} {i : Nat}
    (hnd : (hs.map Handler.id).Nodup) :
    i ∉ (removeFirst hs i).map Handler.id := by
  intro hcon
  exact not_mem_ids_eraseP hnd
    (((removeFirst_perm hs i).map Handler.id).mem_iff.mp hcon)

lemma nodup_ids_removeFirst {hs : List Handler} (i : Nat)
    (hnd : (hs.map Handler.id).Nodup) :
    ((removeFirst hs i).map Handler.id).Nodup := by
  rw [((removeFirst_perm hs i).map Handler.id).nodup_iff]
  exact List.Nodup.sublist ((List.eraseP_sublist hs).map Handler.id) hnd

/-! ## Lemmas about `applyRemovals` -/

lemma applyRemovals_nil (hs : List Handler) : applyRemovals hs [] = hs := rfl

lemma applyRemovals_cons (hs : List Handler) (r : Nat) (rs : List Nat) :
    applyRemovals hs (r :: rs) = applyRemovals (removeFirst hs r) rs := rfl

lemma mem_ids_of_mem_ids_applyRemovals {hs : List Handler} {rq : List Nat} {a : Nat}
    (h : a ∈ (applyRemovals hs rq).map Handler.id) : a ∈ hs.map Handler.id := by
  induction rq generalizing hs with
  | nil => exact h
  | cons r rs ih => exact mem_ids_of_mem_ids_removeFirst (ih h)

lemma not_mem_ids_applyRemovals_of_not_mem {hs : List Handler} {rq : List Nat} {i : Nat}
    (h : i ∉ hs.map Handler.id) : i ∉ (applyRemovals hs rq).map Handler.id :=
  fun hc => h (mem_ids_of_mem_ids_applyRemovals hc)

lemma nodup_ids_applyRemovals {hs : List Handler} (rq : List Nat)
    (hnd : (hs.map Handler.id).Nodup) :
    ((applyRemovals hs rq).map Handler.id).Nodup := by
  induction rq generalizing hs with
  | nil => exact hnd
  | cons r rs ih => exact ih (nodup_ids_removeFirst r hnd)

lemma not_mem_ids_applyRemovals_of_mem {hs : List Handler} {rq : List Nat} {i : Nat}
    (hnd : (hs.map Handler.id).Nodup) (hi : i ∈ rq) :
    i ∉ (applyRemovals hs rq).map Handler.id := by
  induction rq generalizing hs with
  | nil => cases hi
  | cons r rs ih =>
    rw [applyRemovals_cons]
    rcases List.mem_cons.mp hi with rfl | hi'
    · exact not_mem_ids_applyRemovals_of_not_mem (not_mem_ids_removeFirst hnd)
    · exact ih (nodup_ids_removeFirst r hnd) hi'

lemma applyRemovals_skip {hs : List Handler} {i : Nat} (h : i ∉ hs.map Handler.id)
    (a b : List Nat) :
    applyRemovals hs (a ++ i :: b) = applyRemovals hs (a ++ b) := by
  induction a generalizing hs with
  | nil =>
    simp only [List.nil_append, applyRemovals_cons, removeFirst_eq_self h]
  | cons r rs ih =>
    simp only [List.cons_append, applyRemovals_cons]
    exact ih (fun hc => h (mem_ids_of_mem_ids_removeFirst hc))

/-! ## Unfolding lemmas for the API operations -/

lemma add_handler_free (s : EventDispatcher) (h : Handler) :
    add_handler false s h = { s with handlers := s.handlers ++ [h] } := rfl

lemma add_handler_held (s : EventDispatcher) (h : Handler) :
    add_handler true s h = { s with added_queue := s.added_queue ++ [h] } := rfl

lemma remove_handler_free (s : EventDispatcher) (i : Nat) :
    remove_handler false s i = { s with handlers := removeFirst s.handlers i } := rfl

lemma remove_handler_held (s : EventDispatcher) (i : Nat) :
    remove_handler true s i = { s with removed_queue := s.removed_queue ++ [i] } := rfl

lemma dispatch_uncontended (s : EventDispatcher) (e : Nat) :
    dispatch false s e =
      ({ handlers :=
           applyRemovals s.handlers (s.removed_queue ++ reentrantRemoves s.handlers)
             ++ (s.added_queue ++ reentrantAdds s.handlers),
         added_queue := [], removed_queue := [] },
       s.handlers.map (fun h => (h.id, e))) := rfl

/-- Shared: any id sitting in `added_queue` at reconciliation time (whether
queued before the dispatch or reentrantly during it) is live afterwards. -/
lemma mem_ids_after_dispatch {s : EventDispatcher} {e i : Nat}
    (h : i ∈ (s.added_queue ++ reentrantAdds s.handlers).map Handler.id) :
    i ∈ (dispatch false s e).1.handlers.map Handler.id := by
  rw [dispatch_uncontended, List.map_append]
  exact List.mem_append_right _ h

/-- Shared: a handler registered reentrantly during the dispatch over `hs`
appears in the queued additions. -/
lemma mem_reentrantAdds {hs : List Handler} {h : Handler} {i : Nat} {c : Cb}
    (hmem : h ∈ hs) (hop : (i, some c) ∈ cbOps h.cb) :
    (⟨i, c⟩ : Handler) ∈ reentrantAdds hs := by
  rw [reentrantAdds, List.mem_flatMap]
  exact ⟨h, hmem, List.mem_filterMap.mpr ⟨(i, some c), hop, rfl⟩⟩

/-- Shared: an id unregistered reentrantly during the dispatch over `hs`
appears in the queued removals. -/
lemma mem_reentrantRemoves {hs : List Handler} {h : Handler} {i : Nat}
    (hmem : h ∈ hs) (hop : (i, (none : Option Cb)) ∈ cbOps h.cb) :
    i ∈ reentrantRemoves hs := by
  rw [reentrantRemoves, List.mem_flatMap]
  exact ⟨h, hmem, List.mem_filterMap.mpr ⟨(i, none), hop, rfl⟩⟩

lemma dispatch_log (s : EventDispatcher) (e : Nat) :
    (dispatch false s e).2 = s.handlers.map (fun h => (h.id, e)) := rfl

lemma dispatch_handlers (s : EventDispatcher) (e : Nat) :
    (dispatch false s e).1.handlers =
      applyRemovals s.handlers (s.removed_queue ++ reentrantRemoves s.handlers)
        ++ (s.added_queue ++ reentrantAdds s.handlers) := rfl

lemma regAll_eq (hs : List Handler) : regAll hs = ⟨hs, [], []⟩ := by
  have key : ∀ (l : List Handler) (s : EventDispatcher),
      l.foldl (add_handler false) s = { s with handlers := s.handlers ++ l } := by
    intro l
    induction l with
    | nil => intro s; cases s; simp
    | cons a t ih =>
      intro s
      rw [List.foldl_cons, add_handler_free, ih]
      cases s
      simp
  rw [regAll, key]
  rfl

lemma removeFirst_eq_swapRemove {hs : List Handler} {X idx : Nat}
    (hfind : hs.findIdx? (fun h => h.id == X) = some idx) :
    removeFirst hs X = swapRemove hs idx := by
  unfold removeFirst
  rw [hfind]

lemma length_swapRemove {α : Type} (l : List α) (i : Nat) (hne : l ≠ []) :
    (swapRemove l i).length + 1 = l.length := by
  rw [swapRemove_eq_of_getLast? (List.getLast?_eq_getLast l hne) i,
    List.length_dropLast, List.length_set]
  have := List.length_pos.mpr hne
  omega

lemma getElem?_swapRemove {α : Type} (l : List α) (i : Nat) (hi : i + 1 < l.length) :
    (swapRemove l i)[i]? = l.getLast? := by
  have hne : l ≠ [] := by
    intro hcon
    rw [hcon] at hi
    simp at hi
  rw [swapRemove_eq_of_getLast? (List.getLast?_eq_getLast l hne) i,
    List.getElem?_dropLast, List.length_set]
  rw [if_pos (by omega)]
  rw [List.getElem?_set_self (by omega)]
  rw [List.getLast?_eq_getLast l hne]

lemma mem_removeFirst_of_ne {hs : List Handler} {h : Handler} {X : Nat}
    (hm : h ∈ hs) (hne : h.id ≠ X) : h ∈ removeFirst hs X :=
  (removeFirst_perm hs X).mem_iff.mpr
    ((List.mem_eraseP_of_neg (by simpa using hne)).mpr hm)

lemma applyRemovals_nil_handlers (rq : List Nat) : applyRemovals [] rq = [] := by
  induction rq with
  | nil => rfl
  | cons r rs ih => exact ih

/-! ## The claims -/

/-- State used for claim C1: a single live handler (id 0) whose callback
reentrantly registers a handler with id 1 and then unregisters id 1; both
requests are deferred into the queues because `dispatch` holds the lock. -/
def c1State : EventDispatcher :=
  ⟨[⟨0, Cb.mk [(1, some (Cb.mk [])), (1, none)]⟩], [], []⟩

/-- Claim C1, counterexample: in the state `c1State`, a dispatch during
which id 1 is first registered (deferred) and then unregistered (deferred)
leaves the handler with id 1 PRESENT in the live list — the claim asserts
it would be absent. -/
theorem c1_add_then_remove_cex :
    1 ∈ (dispatch false c1State 42).1.handlers.map Handler.id := by decide

/-- Claim C1 (amended): for every dispatch call that acquires the live
lock, if during that call a handler with id X is registered (deferred into
`added_queue`) and then unregistered (deferred into `removed_queue`), then
after the dispatch's reconciliation the handler with id X is PRESENT in
the live list: the drained removals are applied to the live list before
the queued additions are appended, so a deferred removal can never cancel
a same-cycle deferred addition. -/
theorem c1_add_then_remove_same_cycle (s : EventDispatcher) (e X : Nat)
    (hadd : X ∈ (reentrantAdds s.handlers).map Handler.id)
    (_hrem : X ∈ reentrantRemoves s.handlers) :
    X ∈ (dispatch false s e).1.handlers.map Handler.id :=
  mem_ids_after_dispatch
    (by rw [List.map_append]; exact List.mem_append_right _ hadd)

/-- Witness for the amended C1 at the concrete state `c1State`. -/
theorem c1_add_then_remove_same_cycle_witness :
    (1 ∈ (reentrantAdds c1State.handlers).map Handler.id) ∧
    (1 ∈ reentrantRemoves c1State.handlers) ∧
    1 ∈ (dispatch false c1State 7).1.handlers.map Handler.id :=
  ⟨by decide, by decide,
    c1_add_then_remove_same_cycle c1State 7 1 (by decide) (by decide)⟩

/-- Claim C2: registrations R1..Rn on the uncontended (direct) path
followed by one uncontended `dispatch e` invoke every registered handler
exactly once with `e`, in registration order (the log lists exactly the
registered ids, in order, each paired with `e`). -/
theorem c2_uncontended_delivery (hs : List Handler) (e : Nat)
    (hnd : (hs.map Handler.id).Nodup) :
    (dispatch false (regAll hs) e).2 = hs.map (fun h => (h.id, e)) ∧
    ∀ h ∈ hs, ((dispatch false (regAll hs) e).2.map Prod.fst).count h.id = 1 := by
  have hlog : (dispatch false (regAll hs) e).2 = hs.map (fun h => (h.id, e)) := by
    rw [regAll_eq, dispatch_log]
  refine ⟨hlog, ?_⟩
  intro h hm
  rw [hlog, List.map_map]
  have hmap : (Prod.fst ∘ fun h : Handler => (h.id, e)) = Handler.id := rfl
  rw [hmap]
  exact List.count_eq_one_of_mem hnd (List.mem_map.mpr ⟨h, hm, rfl⟩)

/-- Witness for C2 with two concrete handlers. -/
theorem c2_uncontended_delivery_witness :
    (([⟨5, Cb.mk []⟩, ⟨7, Cb.mk []⟩] : List Handler).map Handler.id).Nodup ∧
    (dispatch false (regAll [⟨5, Cb.mk []⟩, ⟨7, Cb.mk []⟩]) 9).2 =
      [(5, 9), (7, 9)] ∧
    ((dispatch false (regAll [⟨5, Cb.mk []⟩, ⟨7, Cb.mk []⟩]) 9).2.map
      Prod.fst).count 5 = 1 :=
  ⟨by decide, by decide,
    (c2_uncontended_delivery [⟨5, Cb.mk []⟩, ⟨7, Cb.mk []⟩] 9 (by decide)).2
      ⟨5, Cb.mk []⟩ (by simp)⟩

/-- Claim C5: a `dispatch` call that fails to acquire the live-list lock
returns immediately: no handler is invoked (empty log) and the state —
live list and both queues — is unchanged. -/
theorem c5_contention_drop (s : EventDispatcher) (e : Nat) :
    dispatch true s e = (s, []) := rfl

/-- Claim C9: a dispatch that acquires the lock on an empty live list
invokes no callback (empty log) but still reconciles: both queues are
drained and the pending additions become the live handlers. -/
theorem c9_empty_dispatch (s : EventDispatcher) (e : Nat)
    (hemp : s.handlers = []) :
    (dispatch false s e).2 = [] ∧
    (dispatch false s e).1.handlers = s.added_queue ∧
    (dispatch false s e).1.added_queue = [] ∧
    (dispatch false s e).1.removed_queue = [] := by
  refine ⟨?_, ?_, rfl, rfl⟩
  · rw [dispatch_log, hemp]
    rfl
  · rw [dispatch_handlers, hemp, applyRemovals_nil_handlers]
    show [] ++ (s.added_queue ++ reentrantAdds []) = s.added_queue
    simp [reentrantAdds]

/-- Witness for C9: empty dispatcher with one queued addition. -/
theorem c9_empty_dispatch_witness :
    (⟨[], [⟨3, Cb.mk []⟩], [5]⟩ : EventDispatcher).handlers = [] ∧
    (dispatch false ⟨[], [⟨3, Cb.mk []⟩], [5]⟩ 1).2 = [] ∧
    (dispatch false ⟨[], [⟨3, Cb.mk []⟩], [5]⟩ 1).1.handlers = [⟨3, Cb.mk []⟩] :=
  ⟨rfl, (c9_empty_dispatch ⟨[], [⟨3, Cb.mk []⟩], [5]⟩ 1 rfl).1,
    (c9_empty_dispatch ⟨[], [⟨3, Cb.mk []⟩], [5]⟩ 1 rfl).2.1⟩

/-- Claim C10: after any dispatch that acquires the lock, both deferral
queues are empty — every queued (including reentrantly queued) addition
and removal has been drained, and an unmatched removal is discarded, not
kept. -/
theorem c10_queues_drained (s : EventDispatcher) (e : Nat) :
    (dispatch false s e).1.added_queue = [] ∧
    (dispatch false s e).1.removed_queue = [] :=
  ⟨rfl, rfl⟩

/-- Claim C3: a handler that reentrantly registers `(X, c)` during
`dispatch e` does not get `c` invoked during that dispatch (no log entry
carries id X), yet `X` is live afterwards and is invoked by the next
uncontended dispatch. -/
theorem c3_reentrant_add (s : EventDispatcher) (e e2 X : Nat) (c : Cb)
    (h : Handler) (hmem : h ∈ s.handlers) (hop : (X, some c) ∈ cbOps h.cb)
    (hfresh : X ∉ s.handlers.map Handler.id) :
    (∀ p ∈ (dispatch false s e).2, p.1 ≠ X) ∧
    X ∈ (dispatch false s e).1.handlers.map Handler.id ∧
    (X, e2) ∈ (dispatch false (dispatch false s e).1 e2).2 := by
  have hlive : X ∈ (dispatch false s e).1.handlers.map Handler.id :=
    mem_ids_after_dispatch (by
      rw [List.map_append]
      exact List.mem_append_right _
        (List.mem_map.mpr ⟨⟨X, c⟩, mem_reentrantAdds hmem hop, rfl⟩))
  refine ⟨?_, hlive, ?_⟩
  · intro p hp
    rw [dispatch_log] at hp
    rcases List.mem_map.mp hp with ⟨g, hg, rfl⟩
    intro hcon
    exact hfresh (List.mem_map.mpr ⟨g, hg, hcon⟩)
  · rw [dispatch_log]
    rcases List.mem_map.mp hlive with ⟨g, hg, hgid⟩
    exact List.mem_map.mpr ⟨g, hg, by simp [hgid]⟩

/-- State for the C3 witness: one live handler (id 0) that registers a new
handler with id 1. -/
def c3State : EventDispatcher :=
  ⟨[⟨0, Cb.mk [(1, some (Cb.mk []))]⟩], [], []⟩

/-- Witness for C3 at `c3State`. -/
theorem c3_reentrant_add_witness :
    ((⟨0, Cb.mk [(1, some (Cb.mk []))]⟩ : Handler) ∈ c3State.handlers) ∧
    ((1, some (Cb.mk [])) ∈ cbOps (Cb.mk [(1, some (Cb.mk []))])) ∧
    (1 ∉ c3State.handlers.map Handler.id) ∧
    ((∀ p ∈ (dispatch false c3State 4).2, p.1 ≠ 1) ∧
      1 ∈ (dispatch false c3State 4).1.handlers.map Handler.id ∧
      (1, 5) ∈ (dispatch false (dispatch false c3State 4).1 5).2) :=
  ⟨List.mem_singleton.mpr rfl, List.mem_singleton.mpr rfl, by decide,
    c3_reentrant_add c3State 4 5 1 (Cb.mk []) ⟨0, Cb.mk [(1, some (Cb.mk []))]⟩
      (List.mem_singleton.mpr rfl) (List.mem_singleton.mpr rfl) (by decide)⟩

/-- Claim C4: a handler that reentrantly unregisters its own id during
`dispatch e` still completes its invocation for `e` (its log entry is
present), is absent from the live list after reconciliation, and receives
no event on a subsequent dispatch.  Hypotheses: live ids are unique (the
caller contract) and nothing re-registers that id in the same cycle. -/
theorem c4_reentrant_self_remove (s : EventDispatcher) (e e2 : Nat)
    (h : Handler) (hmem : h ∈ s.handlers)
    (hop : (h.id, (none : Option Cb)) ∈ cbOps h.cb)
    (hnd : (s.handlers.map Handler.id).Nodup)
    (hnoadd : h.id ∉ (s.added_queue ++ reentrantAdds s.handlers).map Handler.id) :
    (h.id, e) ∈ (dispatch false s e).2 ∧
    h.id ∉ (dispatch false s e).1.handlers.map Handler.id ∧
    ∀ p ∈ (dispatch false (dispatch false s e).1 e2).2, p.1 ≠ h.id := by
  have habs : h.id ∉ (dispatch false s e).1.handlers.map Handler.id := by
    rw [dispatch_handlers, List.map_append]
    intro hcon
    rcases List.mem_append.mp hcon with hc | hc
    · exact not_mem_ids_applyRemovals_of_mem hnd
        (List.mem_append_right _ (mem_reentrantRemoves hmem hop)) hc
    · exact hnoadd hc
  refine ⟨?_, habs, ?_⟩
  · rw [dispatch_log]
    exact List.mem_map.mpr ⟨h, hmem, rfl⟩
  · intro p hp
    rw [dispatch_log] at hp
    rcases List.mem_map.mp hp with ⟨g, hg, rfl⟩
    intro hcon
    exact habs (List.mem_map.mpr ⟨g, hg, hcon⟩)

/-- State for the C4 witness: one live handler (id 0) that unregisters its
own id. -/
def c4State : EventDispatcher := ⟨[⟨0, Cb.mk [(0, none)]⟩], [], []⟩

/-- Witness for C4 at `c4State`. -/
theorem c4_reentrant_self_remove_witness :
    ((⟨0, Cb.mk [(0, none)]⟩ : Handler) ∈ c4State.handlers) ∧
    ((0, (none : Option Cb)) ∈ cbOps (Cb.mk [(0, none)])) ∧
    ((c4State.handlers.map Handler.id).Nodup) ∧
    (0 ∉ (c4State.added_queue ++ reentrantAdds c4State.handlers).map Handler.id) ∧
    ((0, 4) ∈ (dispatch false c4State 4).2 ∧
      0 ∉ (dispatch false c4State 4).1.handlers.map Handler.id ∧
      ∀ p ∈ (dispatch false (dispatch false c4State 4).1 5).2, p.1 ≠ 0) :=
  ⟨List.mem_singleton.mpr rfl, List.mem_singleton.mpr rfl, by decide, by decide,
    c4_reentrant_self_remove c4State 4 5 ⟨0, Cb.mk [(0, none)]⟩
      (List.mem_singleton.mpr rfl) (List.mem_singleton.mpr rfl)
      (by decide) (by decide)⟩

/-- Claim C6: unregistering an id that is not in the live list is a no-op
on the uncontended path (also when called twice), and a deferred
unregister of such an id changes nothing about the next uncontended
dispatch's outcome. -/
theorem c6_unregister_absent (s : EventDispatcher) (X : Nat)
    (habs : X ∉ s.handlers.map Handler.id) :
    remove_handler false s X = s ∧
    remove_handler false (remove_handler false s X) X = s ∧
    ∀ e, dispatch false (remove_handler true s X) e = dispatch false s e := by
  have h1 : remove_handler false s X = s := by
    rw [remove_handler_free, removeFirst_eq_self habs]
  refine ⟨h1, by rw [h1, h1], ?_⟩
  intro e
  obtain ⟨hs, aq, rq⟩ := s
  have habs2 : X ∉ hs.map Handler.id := habs
  have key : applyRemovals hs ((rq ++ [X]) ++ reentrantRemoves hs) =
      applyRemovals hs (rq ++ reentrantRemoves hs) := by
    rw [List.append_assoc, List.singleton_append]
    exact applyRemovals_skip habs2 rq (reentrantRemoves hs)
  show ((⟨applyRemovals hs ((rq ++ [X]) ++ reentrantRemoves hs)
          ++ (aq ++ reentrantAdds hs), [], []⟩ : EventDispatcher),
        hs.map (fun h => (h.id, e))) =
      ((⟨applyRemovals hs (rq ++ reentrantRemoves hs)
          ++ (aq ++ reentrantAdds hs), [], []⟩ : EventDispatcher),
        hs.map (fun h => (h.id, e)))
  rw [key]

/-- Witness for C6: unregistering the never-registered id 9. -/
theorem c6_unregister_absent_witness :
    (9 ∉ (⟨[⟨2, Cb.mk []⟩], [], []⟩ : EventDispatcher).handlers.map Handler.id) ∧
    remove_handler false ⟨[⟨2, Cb.mk []⟩], [], []⟩ 9 = ⟨[⟨2, Cb.mk []⟩], [], []⟩ :=
  ⟨by decide, (c6_unregister_absent ⟨[⟨2, Cb.mk []⟩], [], []⟩ 9 (by decide)).1⟩

/-- Claim C8: when the uncontended `remove_handler` finds a first matching
index, it removes exactly that element by moving the last element into its
slot and truncating: the live list becomes `swapRemove` at that index, its
length drops by one, the result is a permutation of erasing the first
match, every handler with a different id keeps its membership, and (when
the removed slot was not the last) the old last element now sits in the
removed slot. -/
theorem c8_swap_remove_semantics (s : EventDispatcher) (X idx : Nat)
    (hfind : s.handlers.findIdx? (fun h => h.id == X) = some idx) :
    (remove_handler false s X).handlers = swapRemove s.handlers idx ∧
    (remove_handler false s X).handlers.length + 1 = s.handlers.length ∧
    (remove_handler false s X).handlers.Perm
      (s.handlers.eraseP (fun h => h.id == X)) ∧
    (∀ h ∈ s.handlers, h.id ≠ X → h ∈ (remove_handler false s X).handlers) ∧
    (idx + 1 < s.handlers.length →
      (remove_handler false s X).handlers[idx]? = s.handlers.getLast?) := by
  have hh : (remove_handler false s X).handlers = removeFirst s.handlers X := rfl
  have hne : s.handlers ≠ [] := by
    intro hcon
    rw [hcon] at hfind
    simp at hfind
  have hsw : removeFirst s.handlers X = swapRemove s.handlers idx :=
    removeFirst_eq_swapRemove hfind
  refine ⟨hh.trans hsw, ?_, ?_, ?_, ?_⟩
  · rw [hh, hsw]
    exact length_swapRemove _ _ hne
  · rw [hh]
    exact removeFirst_perm _ _
  · intro h hm hneid
    rw [hh]
    exact mem_removeFirst_of_ne hm hneid
  · intro hi
    rw [hh, hsw]
    exact getElem?_swapRemove _ _ hi

/-- State for the C8 witness: live handlers with ids 1, 2, 3. -/
def c8State : EventDispatcher :=
  ⟨[⟨1, Cb.mk []⟩, ⟨2, Cb.mk []⟩, ⟨3, Cb.mk []⟩], [], []⟩

/-- Witness for C8: removing id 2 swaps id 3 into slot 1. -/
theorem c8_swap_remove_semantics_witness :
    c8State.handlers.findIdx? (fun h => h.id == 2) = some 1 ∧
    (remove_handler false c8State 2).handlers = swapRemove c8State.handlers 1 ∧
    (remove_handler false c8State 2).handlers.length + 1 =
      c8State.handlers.length :=
  ⟨rfl, (c8_swap_remove_semantics c8State 2 1 rfl).1,
    (c8_swap_remove_semantics c8State 2 1 rfl).2.1⟩

/-- Dispatcher states reachable through the public API, observed between
operations (so never inside the reconciliation window of a running
`dispatch`).  Each `add_handler`/`remove_handler` may nondeterministically
find the live lock free or held; `add_handler` carries the caller
contract from the spec that a registered id is unique among the currently
registered ones (absent from the live list and from `added_queue`). -/
inductive Reachable : EventDispatcher → Prop where
  | init : Reachable EventDispatcher.new
  | add (s : EventDispatcher) (h : Handler) (locked : Bool)
      (hr : Reachable s)
      (hfreshLive : h.id ∉ s.handlers.map Handler.id)
      (hfreshQueue : h.id ∉ s.added_queue.map Handler.id) :
      Reachable (add_handler locked s h)
  | remove (s : EventDispatcher) (i : Nat) (locked : Bool)
      (hr : Reachable s) : Reachable (remove_handler locked s i)
  | disp (s : EventDispatcher) (e : Nat) (hr : Reachable s) :
      Reachable (dispatch false s e).1

/-- Claim C7: in every reachable dispatcher state (between operations —
the reconciliation window inside `dispatch` is not an observable state
here), an id present in the live list is absent from `added_queue`, and
hence vice versa. -/
theorem c7_live_added_disjoint (s : EventDispatcher) (hr : Reachable s) :
    ∀ X ∈ s.handlers.map Handler.id, X ∉ s.added_queue.map Handler.id := by
  induction hr with
  | init =>
    intro X hX
    cases hX
  | add s h locked hr hfl hfq ih =>
    obtain ⟨hs, aq, rq⟩ := s
    cases locked
    · intro X hX hq
      have hX2 : X ∈ (hs ++ [h]).map Handler.id := hX
      have hq2 : X ∈ aq.map Handler.id := hq
      rw [List.map_append] at hX2
      rcases List.mem_append.mp hX2 with hc | hc
      · exact ih X hc hq2
      · have hXh : X = h.id := by simpa using hc
        subst hXh
        exact hfq hq2
    · intro X hX hq
      have hX2 : X ∈ hs.map Handler.id := hX
      have hq2 : X ∈ (aq ++ [h]).map Handler.id := hq
      rw [List.map_append] at hq2
      rcases List.mem_append.mp hq2 with hc | hc
      · exact ih X hX2 hc
      · have hXh : X = h.id := by simpa using hc
        subst hXh
        exact hfl hX2
  | remove s i locked hr ih =>
    obtain ⟨hs, aq, rq⟩ := s
    cases locked
    · intro X hX
      have hX2 : X ∈ (removeFirst hs i).map Handler.id := hX
      exact ih X (mem_ids_of_mem_ids_removeFirst hX2)
    · intro X hX
      exact ih X hX
  | disp s e hr ih =>
    intro X hX hq
    cases hq

/-- State for the C7 witness: id 1 registered uncontended (live), id 2
registered while the lock was held (queued). -/
def c7State : EventDispatcher :=
  add_handler true (add_handler false EventDispatcher.new ⟨1, Cb.mk []⟩)
    ⟨2, Cb.mk []⟩

/-- Witness for C7 at `c7State`. -/
theorem c7_live_added_disjoint_witness :
    (1 ∈ c7State.handlers.map Handler.id) ∧
    1 ∉ c7State.added_queue.map Handler.id :=
  ⟨by decide,
    c7_live_added_disjoint c7State
      (Reachable.add _ ⟨2, Cb.mk []⟩ true
        (Reachable.add _ ⟨1, Cb.mk []⟩ false Reachable.init
          (by decide) (by decide))
        (by decide) (by decide))
      1 (by decide)⟩

end R3d
